import Mathlib

/-
  Verification development for the HateCode repository.

  Shallow embedding of:
  * src/baseline_cnn/baseline_cnn.py  — the CNN classifier (`CNNModel`), the
    per-epoch checkpoint decision inside `train` (lines 148-161), and the
    checkpoint paths used by `train` (line 158) and `main` (lines 228-230);
  * src/KBert/data/helper.py          — the vocabulary builder (`process`,
    the globals `max_pos` and `postag_vocab`, and the vocabulary output loop);
  * src/KBert/uer/layers/embeddings.py — the embedding fusion layer
    (`BertEmbedding`).

  Real numbers that the Python code manipulates (metric values, weights) are
  modelled as rationals; external stochastic or out-of-repo layers (dropout,
  the pretrained transformer's embedding module, LayerNorm, exp/log) are
  abstract function parameters, so every theorem holds for all of their
  instantiations.
-/

namespace HateCode

/-! ### Training/evaluation driver: the per-epoch checkpoint decision
    (src/baseline_cnn/baseline_cnn.py, `train`, lines 134-161) -/

/-- The `eval_result` dictionary built in `train` (lines 134-139):
`{'acc': ..., 'f1': ..., 'precision': ..., 'recall': ...}`. -/
structure EvalResult where
  acc : ℚ
  f1 : ℚ
  precision : ℚ
  «recall» : ℚ
deriving DecidableEq, Repr

/-- The two on-disk artifacts the checkpoint decision manipulates:
the JSON record `./log/best_{model_name}_result.json` and the weights file
saved by `torch.save`.  `W` is the type of weight snapshots
(`model.state_dict()` is opaque to this development). -/
structure DriverFiles (W : Type) where
  result : Option EvalResult
  ckpt : Option W

/-- The checkpoint decision of `train` (lines 148-161), one epoch:
if the result file does not exist, write `eval_result` to it (no weights are
saved); otherwise load the old record and, when `eval_result["f1"] >
old_result["f1"]`, save the weights and overwrite the record; otherwise leave
both files alone. -/
def trainCheckpointStep {W : Type} (files : DriverFiles W) (weights : W)
    (r : EvalResult) : DriverFiles W :=
  match files.result with
  | none => { result := some r, ckpt := files.ckpt }
  | some old_result =>
      if old_result.f1 < r.f1 then { result := some r, ckpt := some weights }
      else files

/-- Running the checkpoint decision over a whole run: one
`(weights, eval_result)` pair per epoch, starting with neither a result
record nor a checkpoint on disk (lines 224-225 of `main` call `train` once
per epoch). -/
def driverRun {W : Type} (evals : List (W × EvalResult)) : DriverFiles W :=
  evals.foldl (fun fs p => trainCheckpointStep fs p.1 p.2) ⟨none, none⟩

/-- Largest F1 value over a nonempty run `x :: xs` of per-epoch results. -/
def maxF1 {W : Type} (x : W × EvalResult) (xs : List (W × EvalResult)) : ℚ :=
  xs.foldl (fun a p => max a p.2.f1) x.2.f1

/-- A concrete evaluation result with every metric `0.5`. -/
def r05 : EvalResult := ⟨1/2, 1/2, 1/2, 1/2⟩

/-- A concrete evaluation result with every metric `0.9`. -/
def r09 : EvalResult := ⟨9/10, 9/10, 9/10, 9/10⟩

/-! ### Checkpoint paths (src/baseline_cnn/baseline_cnn.py) -/

/-- The path `train` saves the checkpoint to (line 158):
`save_path + f'best_{args.model_name}_model.pt'`. -/
def trainCheckpointPath (save_path : String) (model_name : String) : String :=
  save_path ++ "best_" ++ model_name ++ "_model.pt"

/-- The default of the `save_path` parameter of `train` (line 91), which is
what `main` uses since it never passes `args.save_path` to `train`
(line 225). -/
def trainSavePathDefault : String := "./out_models"

/-- The directory literal `main` uses before prediction (line 228):
`save_path = './out_models/'`. -/
def predictLoadDir : String := "./out_models/"

/-- The path `main` loads (and existence-checks) the checkpoint from
(lines 229-230): `save_path + f'best_{args.model_name}_model.pt'` with
`save_path = './out_models/'`. -/
def predictCheckpointPath (model_name : String) : String :=
  predictLoadDir ++ "best_" ++ model_name ++ "_model.pt"

/-! ### The CNN classifier (src/baseline_cnn/baseline_cnn.py, `CNNModel`) -/

/-- Operations supplied by the framework that are stochastic or transcendental
and therefore kept abstract: `exp`/`log` (used by softmax and
`nn.CrossEntropyLoss`) and the `nn.Dropout(0.3)` layer.  Every theorem below
holds for all instantiations of these. -/
structure Prims where
  exp : ℚ → ℚ
  log : ℚ → ℚ
  dropout : List ℚ → List ℚ

/-- The parameters of `CNNModel.__init__` (lines 62-73): the
`nn.Embedding(vocab_size, 768)` table as a row-lookup function, the
`nn.Conv2d(1, 100, (k, 768))` kernels and biases for each width `k`, and the
`nn.Linear(3 * 100, 3)` projection (3 output classes hard-coded). -/
structure CNNModel where
  embedding : ℕ → List ℚ
  convW : ℕ → Fin 100 → List (List ℚ)
  convB : ℕ → Fin 100 → ℚ
  fcW : Fin 3 → List ℚ
  fcB : Fin 3 → ℚ

/-- `kernel_sizes = [2, 3, 4]` (line 66). -/
def kernel_sizes : List ℕ := [2, 3, 4]

/-- Rectified linear unit, `F.relu`. -/
def reluQ (q : ℚ) : ℚ := max q 0

/-- Dot product of two coordinate lists. -/
def dotQ (a b : List ℚ) : ℚ := (List.zipWith (fun u v => u * v) a b).sum

/-- Frobenius inner product of two matrices given as row lists (the
elementwise product sum a `nn.Conv2d` kernel computes on one window). -/
def dot2Q (A B : List (List ℚ)) : ℚ := (List.zipWith dotQ A B).sum

/-- Maximum of a list of rationals (`F.max_pool1d` over the whole length);
`0` on the empty list, which the framework never produces here. -/
def listMax : List ℚ → ℚ
  | [] => 0
  | q :: qs => qs.foldl max q

/-- One branch of line 78-79: `F.relu(conv(x))` for the width-`k`
convolution, then `F.max_pool1d` over all window positions, giving one value
per output channel.  The window at position `p` covers rows `p..p+k-1` of the
embedded sequence. -/
def convReluPool (m : CNNModel) (k : ℕ) (emb : List (List ℚ)) : List ℚ :=
  List.ofFn (fun c : Fin 100 =>
    listMax (((List.range (emb.length + 1 - k)).map
      (fun p => m.convB k c + dot2Q (m.convW k c) ((emb.drop p).take k))).map
        reluQ))

/-- `F.softmax(z, -1)` with the abstract exponential. -/
def softmaxQ (P : Prims) (z : List ℚ) : List ℚ :=
  z.map (fun a => P.exp a / (z.map P.exp).sum)

/-- `nn.CrossEntropyLoss()(z, label)` for a single example:
`-log(softmax(z)[label])`; `none` models the runtime error raised when the
class index is outside `0..z.length-1`. -/
def crossEntropyLoss (P : Prims) (z : List ℚ) (label : ℕ) : Option ℚ :=
  if label < z.length then some (-(P.log ((softmaxQ P z).getD label 0)))
  else none

/-- Lines 76-82 of `CNNModel.forward`: embed the token ids, run the three
conv/relu/max-pool branches, concatenate (`torch.cat(x, 1)`), apply dropout,
apply `self.fc`, and `F.softmax` the result. -/
def cnnLogit (m : CNNModel) (P : Prims) (x : List ℕ) : List ℚ :=
  let emb := x.map m.embedding
  let branches := kernel_sizes.map (fun k => convReluPool m k emb)
  let cat := branches.flatten
  let dropped := P.dropout cat
  let fcOut := List.ofFn (fun i : Fin 3 => dotQ (m.fcW i) dropped + m.fcB i)
  softmaxQ P fcOut

/-- `CNNModel.forward` (lines 75-88): compute the softmaxed projection
`logit`; with a label, feed `logit` (not the raw scores) to
`nn.CrossEntropyLoss` and return `(loss, logit)`; without a label return
`(None, logit)`.  `Except.error` models the exception
`nn.CrossEntropyLoss` raises on an out-of-range class index; the attention
mask `att` is accepted but unused, exactly as in the source. -/
def CNNModel.forward (m : CNNModel) (P : Prims) (x : List ℕ) (att : List ℚ)
    (label : Option ℕ) : Except Unit (Option ℚ × List ℚ) :=
  let logit := cnnLogit m P x
  match label with
  | none => Except.ok (none, logit)
  | some l =>
      match crossEntropyLoss P logit l with
      | some loss => Except.ok (some loss, logit)
      | none => Except.error ()

/-- Modelled from the spec (§4.3, convolutional variant): "embed token ids
directly, apply parallel 1-D convolutions with kernel widths {2,3,4} over the
sequence dimension, apply ReLU and max-pool each branch to a fixed-size
vector, concatenate, apply dropout, project to label space, apply softmax,
compute cross-entropy loss against labels when provided", with the contract
"input: token ids + attention mask (+ optional label); output:
(loss | none, logits)". -/
def specCnnForward (m : CNNModel) (P : Prims) (x : List ℕ) (att : List ℚ)
    (label : Option ℕ) : Except Unit (Option ℚ × List ℚ) :=
  let logits :=
    softmaxQ P
      (List.ofFn (fun i : Fin 3 =>
        dotQ (m.fcW i)
          (P.dropout ((kernel_sizes.map
            (fun k => convReluPool m k (x.map m.embedding))).flatten)) + m.fcB i))
  match label with
  | none => Except.ok (none, logits)
  | some l =>
      match crossEntropyLoss P logits l with
      | some loss => Except.ok (some loss, logits)
      | none => Except.error ()

/-- A concrete parameter set: zero weights everywhere. -/
def cnnZero : CNNModel :=
  { embedding := fun _ => List.replicate 768 0
    convW := fun k _ => List.replicate k (List.replicate 768 0)
    convB := fun _ _ => 0
    fcW := fun _ => List.replicate 300 0
    fcB := fun _ => 0 }

/-- Concrete primitive operations for witnesses: identity `exp`/`log` and an
identity dropout. -/
def primsId : Prims := { exp := id, log := id, dropout := id }

/-! ### Vocabulary builder (src/KBert/data/helper.py) -/

/-- The two per-split JSON mappings `pos` and `postag` written by `process`
(lines 32-33 and 51-55), keyed by row index. -/
structure SplitMaps where
  pos : ℕ → Option (List ℕ)
  postag : ℕ → Option (List String)

/-- The module-level accumulators of helper.py (lines 20-21):
`max_pos = 0` and `postag_vocab = {"[PAD]"}`. -/
structure HelperGlobals where
  max_pos : ℤ
  postag_vocab : Finset String

/-- The state one `process(file_path)` call threads through its row loop:
its local `pos`/`postag` dictionaries and the module globals. -/
structure ProcState where
  maps : SplitMaps
  globals : HelperGlobals

/-- Empty `pos = dict()` / `postag = dict()` at the start of `process`. -/
def emptyMaps : SplitMaps := ⟨fun _ => none, fun _ => none⟩

/-- The body of the row loop of `process` (lines 35-49) for the row at index
`i`.  The POS tagger `nlp` is an external dependency, modelled as a function
from the text to the list of per-token tags (`[token.tag_ for token in doc]`),
with `none` standing for a raised exception; `len(doc)` equals the number of
tags.  On an exception the row is logged and skipped (`continue`), leaving the
state untouched; otherwise `postag[str(i)]` and `pos[str(i)]` are set,
`max_pos = max(max_pos, len(doc) - 1)` and `postag_vocab.update(...)` run. -/
def processRow (tagger : String → Option (List String)) (st : ProcState)
    (item : ℕ × String × ℤ) : ProcState :=
  match item with
  | (i, text, _label) =>
    match tagger text with
    | none => st
    | some tags =>
        { maps :=
            { pos := fun j => if j = i then some (List.range tags.length)
                              else st.maps.pos j
              postag := fun j => if j = i then some tags
                                 else st.maps.postag j }
          globals :=
            { max_pos := max st.globals.max_pos ((tags.length : ℤ) - 1)
              postag_vocab := st.globals.postag_vocab ∪ tags.toFinset } }

/-- The `for i, item in pbar` loop of `process`, with `i` the running
`enumerate` index. -/
def processFrom (tagger : String → Option (List String)) (i : ℕ)
    (rows : List (String × ℤ)) (st : ProcState) : ProcState :=
  match rows with
  | [] => st
  | row :: rest => processFrom tagger (i + 1) rest
      (processRow tagger st (i, row))

/-- `process(file_path)` (lines 24-55): start from empty dictionaries and the
current globals and run the row loop from index 0. -/
def process (tagger : String → Option (List String))
    (rows : List (String × ℤ)) (g : HelperGlobals) : ProcState :=
  processFrom tagger 0 rows ⟨emptyMaps, g⟩

/-- The module body of helper.py: `max_pos = 0`, `postag_vocab = {"[PAD]"}`
(lines 20-21), then `process(train_file)`, `process(dev_file)`,
`process(test_file)` (lines 58-60), threading the globals. -/
def helperMain (tagger : String → Option (List String))
    (train_rows dev_rows test_rows : List (String × ℤ)) :
    ProcState × ProcState × ProcState :=
  let s1 := process tagger train_rows ⟨0, {"[PAD]"}⟩
  let s2 := process tagger dev_rows s1.globals
  let s3 := process tagger test_rows s2.globals
  (s1, s2, s3)

/-- The `postag_vocab.txt` output loop (lines 71-76): every element of the
set, written once each (the separator handling does not change the written
tags).  Python's set iteration order is not deterministic, so the file is
modelled as one fixed enumeration of the set — here the sorted one; the
claims about the file concern only membership and the absence of
duplicates, which every enumeration shares. -/
def postagVocabFile (g : HelperGlobals) : List String :=
  g.postag_vocab.sort (fun a b => a ≤ b)

/-- The tag lists of the successfully tagged rows of a split, in row order
(the rows whose `try` body completes). -/
def succTagLists (tagger : String → Option (List String))
    (rows : List (String × ℤ)) : List (List String) :=
  rows.filterMap (fun row => tagger row.1)

/-- The token counts (`len(doc)`) of the successfully tagged rows. -/
def succTokenCounts (tagger : String → Option (List String))
    (rows : List (String × ℤ)) : List ℕ :=
  (succTagLists tagger rows).map List.length

/-- Maximum of a list of naturals, `0` when empty. -/
def maxNat (l : List ℕ) : ℕ := l.foldr max 0

/-- All tags of a list of tag lists, as a set. -/
def unionTags (ls : List (List String)) : Finset String :=
  ls.foldr (fun tags acc => tags.toFinset ∪ acc) ∅

/-- The `enumerate` view of a row list starting at index `i`. -/
def enumFrom (i : ℕ) : List (String × ℤ) → List (ℕ × String × ℤ)
  | [] => []
  | row :: rest => (i, row) :: enumFrom (i + 1) rest

/-- A concrete tagger for which every text produces an empty document
(zero tokens), as spacy does on the empty string. -/
def cexTagger : String → Option (List String) := fun _ => some []

/-- A concrete tagger that raises on the text `"bad"` and tags every other
text as a single noun token. -/
def tagger0 : String → Option (List String) :=
  fun s => if s = "bad" then none else some ["NN"]

/-! ### Embedding fusion layer (src/KBert/uer/layers/embeddings.py) -/

/-- The submodules of `BertEmbedding` (lines 14-23): `nn.Dropout(args.dropout)`
and the `LayerNorm(args.emb_size)` layer are kept abstract (the dropout is
stochastic; `uer/layers/layer_norm.py` is outside the provided sources), the
`nn.Embedding(len(args.postag_vocab), args.emb_size)` table is a list of rows,
and `bert_embedding` is the pretrained transformer's own embedding module
(external), taking the token ids, the optional position ids and the segment
ids in the order of the call `self.bert_embedding(src, pos, seg)`. -/
structure BertEmbedding where
  dropout : List (List ℚ) → List (List ℚ)
  postag_embedding : List (List ℚ)
  bert_embedding : List ℕ → Option (List ℕ) → List ℕ → List (List ℚ)
  layer_norm : List (List ℚ) → List (List ℚ)

/-- Elementwise sum of two per-token embedding matrices (`emb + postag_emb`).
-/
def matAdd (A B : List (List ℚ)) : List (List ℚ) :=
  List.zipWith (List.zipWith (fun u v => u + v)) A B

/-- `nn.Embedding` lookup: each id selects its row of the table. -/
def embeddingLookup (table : List (List ℚ)) (ids : List ℕ) :
    List (List ℚ) :=
  ids.map (fun id => table.getD id [])

/-- `BertEmbedding.forward` (lines 25-40): `emb = self.bert_embedding(src,
pos, seg)`, `postag_emb = self.postag_embedding(postag_ids)`,
`emb = emb + postag_emb`, `emb = self.dropout(self.layer_norm(emb))`. -/
def BertEmbedding.forward (m : BertEmbedding) (src : List ℕ)
    (postag_ids : List ℕ) (seg : List ℕ) (pos : Option (List ℕ)) :
    List (List ℚ) :=
  let emb := m.bert_embedding src pos seg
  let postag_emb := embeddingLookup m.postag_embedding postag_ids
  let emb2 := matAdd emb postag_emb
  m.dropout (m.layer_norm emb2)

/-- `BertEmbedding.__init__` (lines 14-23): the POS-tag embedding table is
`nn.Embedding(len(args.postag_vocab), args.emb_size)` — one freshly
initialized row (given by the framework's initializer `winit`) per entry of
the POS-tag vocabulary, each of width `args.emb_size`. -/
def BertEmbedding.init (postag_vocab : List String) (emb_size : ℕ)
    (winit : ℕ → ℕ → ℚ)
    (dropoutLayer : List (List ℚ) → List (List ℚ))
    (layerNormLayer : List (List ℚ) → List (List ℚ))
    (bertEmbeddingModule :
      List ℕ → Option (List ℕ) → List ℕ → List (List ℚ)) : BertEmbedding :=
  { dropout := dropoutLayer
    postag_embedding :=
      (List.range postag_vocab.length).map
        (fun row => (List.range emb_size).map (winit row))
    bert_embedding := bertEmbeddingModule
    layer_norm := layerNormLayer }

/-- Modelled from the spec (§4.2): "produce a per-token embedding vector
equal to the pretrained transformer's own embedding ... summed element-wise
with a learned embedding looked up by POS-tag id, followed by layer
normalization and dropout". -/
def specFusionForward (m : BertEmbedding) (src : List ℕ)
    (postag_ids : List ℕ) (seg : List ℕ) (pos : Option (List ℕ)) :
    List (List ℚ) :=
  m.dropout (m.layer_norm
    (matAdd (m.bert_embedding src pos seg)
      (embeddingLookup m.postag_embedding postag_ids)))

/-- A concrete two-entry POS-tag vocabulary. -/
def vocab0 : List String := ["[PAD]", "NN"]

/-- A zero weight initializer. -/
def wZero : ℕ → ℕ → ℚ := fun _ _ => 0

/-- A concrete (degenerate) pretrained embedding module. -/
def beEmpty : List ℕ → Option (List ℕ) → List ℕ → List (List ℚ) :=
  fun _ _ _ => []

/-! ## Theorems -/

/-- Auxiliary: the softmaxed projection always has exactly 3 entries, because
`self.fc` is `nn.Linear(300, 3)`. -/
theorem cnnLogit_length (m : CNNModel) (P : Prims) (x : List ℕ) :
    (cnnLogit m P x).length = 3 := by
  simp [cnnLogit, softmaxQ]

/-- Auxiliary: the first branch of the checkpoint decision — no prior result
file. -/
theorem step_result_none {W : Type} (files : DriverFiles W) (w : W)
    (r : EvalResult) (h : files.result = none) :
    trainCheckpointStep files w r = ⟨some r, files.ckpt⟩ := by
  obtain ⟨res, ck⟩ := files
  cases h
  rfl

/-- Auxiliary: the strict-improvement branch of the checkpoint decision. -/
theorem step_improved {W : Type} (files : DriverFiles W) (w : W)
    (r old : EvalResult) (h : files.result = some old)
    (hf1 : old.f1 < r.f1) :
    trainCheckpointStep files w r = ⟨some r, some w⟩ := by
  obtain ⟨res, ck⟩ := files
  cases h
  simp [trainCheckpointStep, hf1]

/-- Auxiliary: the no-improvement branch of the checkpoint decision. -/
theorem step_not_improved {W : Type} (files : DriverFiles W) (w : W)
    (r old : EvalResult) (h : files.result = some old)
    (hf1 : ¬ old.f1 < r.f1) :
    trainCheckpointStep files w r = files := by
  obtain ⟨res, ck⟩ := files
  cases h
  simp [trainCheckpointStep, hf1]

/-- C1, counterexample: on the very first epoch (no prior result file), the
driver writes the result record but does not save the model weights, so the
two artifacts diverge. -/
theorem first_result_written_without_checkpoint :
    trainCheckpointStep (⟨none, none⟩ : DriverFiles ℕ) 7 r05
        = ⟨some r05, none⟩ ∧
    (trainCheckpointStep (⟨none, none⟩ : DriverFiles ℕ) 7 r05).ckpt ≠ some 7 :=
  ⟨rfl, by decide⟩

/-- C1, amended: when a prior result exists, the result record and the
checkpoint file are updated together (both exactly when the new F1 strictly
exceeds the recorded one); when no prior result exists, the driver writes the
new result record without persisting the weights, leaving the checkpoint as
it was. -/
theorem trainCheckpointStep_update_behavior {W : Type}
    (files : DriverFiles W) (w : W) (r : EvalResult) :
    (files.result = none →
      trainCheckpointStep files w r = ⟨some r, files.ckpt⟩) ∧
    (∀ old, files.result = some old →
      (old.f1 < r.f1 → trainCheckpointStep files w r = ⟨some r, some w⟩) ∧
      (¬ old.f1 < r.f1 → trainCheckpointStep files w r = files)) := by
  obtain ⟨res, ck⟩ := files
  constructor
  · rintro rfl
    rfl
  · rintro old rfl
    constructor
    · intro hf1
      simp [trainCheckpointStep, hf1]
    · intro hf1
      simp [trainCheckpointStep, hf1]

/-- C1 witness: with a recorded best of 0.5 and a new F1 of 0.9, the record
and the checkpoint are overwritten together. -/
theorem trainCheckpointStep_update_behavior_witness :
    ((⟨some r05, none⟩ : DriverFiles ℕ).result = some r05 ∧
      r05.f1 < r09.f1) ∧
    trainCheckpointStep (⟨some r05, none⟩ : DriverFiles ℕ) 3 r09
      = ⟨some r09, some 3⟩ :=
  ⟨⟨rfl, by norm_num [r05, r09]⟩,
    ((trainCheckpointStep_update_behavior
      (⟨some r05, none⟩ : DriverFiles ℕ) 3 r09).2 r05 rfl).1
      (by norm_num [r05, r09])⟩

/-- C2: the checkpoint file changes only when a prior result exists and the
new F1 strictly exceeds the recorded one; in particular with a prior record
of F1 = 0.9 and a new epoch F1 of 0.5 both files are left untouched. -/
theorem checkpoint_overwrite_requires_strict_improvement {W : Type} :
    (∀ (files : DriverFiles W) (w : W) (r : EvalResult),
      (trainCheckpointStep files w r).ckpt ≠ files.ckpt →
      ∃ old, files.result = some old ∧ old.f1 < r.f1) ∧
    (∀ (c : Option W) (w : W),
      trainCheckpointStep ⟨some r09, c⟩ w r05 = ⟨some r09, c⟩) := by
  constructor
  · intro files w r hne
    obtain ⟨res, ck⟩ := files
    cases res with
    | none => exact absurd rfl hne
    | some old =>
        by_cases hf1 : old.f1 < r.f1
        · exact ⟨old, rfl, hf1⟩
        · refine absurd ?_ hne
          simp [trainCheckpointStep, hf1]
  · intro c w
    have h : ¬ r09.f1 < r05.f1 := by norm_num [r09, r05]
    simp [trainCheckpointStep, h]

/-- C2 witness: going from a recorded best of 0.5 to a new F1 of 0.9 does
overwrite the checkpoint, and the theorem then exhibits the strictly smaller
recorded best. -/
theorem checkpoint_overwrite_requires_strict_improvement_witness :
    (trainCheckpointStep (⟨some r05, none⟩ : DriverFiles ℕ) 1 r09).ckpt
        ≠ (⟨some r05, (none : Option ℕ)⟩ : DriverFiles ℕ).ckpt ∧
    ∃ old, (⟨some r05, (none : Option ℕ)⟩ : DriverFiles ℕ).result = some old ∧
      old.f1 < r09.f1 :=
  ⟨by
      have h : r05.f1 < r09.f1 := by norm_num [r05, r09]
      simp [trainCheckpointStep, h],
    (checkpoint_overwrite_requires_strict_improvement (W := ℕ)).1
      ⟨some r05, none⟩ 1 r09
      (by
        have h : r05.f1 < r09.f1 := by norm_num [r05, r09]
        simp [trainCheckpointStep, h])⟩

/-- Auxiliary: a fold of `max` over F1 values never drops below its seed. -/
theorem le_foldl_maxF1 {W : Type} :
    ∀ (l : List (W × EvalResult)) (a : ℚ),
      a ≤ l.foldl (fun b p => max b p.2.f1) a
  | [], a => le_refl a
  | p :: t, a =>
      le_trans (le_max_left a p.2.f1) (le_foldl_maxF1 t (max a p.2.f1))

/-- Auxiliary: the first epoch's F1 never exceeds the running maximum. -/
theorem le_maxF1 {W : Type} (x : W × EvalResult)
    (xs : List (W × EvalResult)) : x.2.f1 ≤ maxF1 x xs :=
  le_foldl_maxF1 xs x.2.f1

/-- Auxiliary: the running maximum after one more epoch. -/
theorem maxF1_append {W : Type} (x y : W × EvalResult)
    (xs : List (W × EvalResult)) :
    maxF1 x (xs ++ [y]) = max (maxF1 x xs) y.2.f1 := by
  simp [maxF1, List.foldl_append]

/-- Auxiliary: running the driver one epoch further. -/
theorem driverRun_concat {W : Type} (x y : W × EvalResult)
    (xs : List (W × EvalResult)) :
    driverRun (x :: (xs ++ [y]))
      = trainCheckpointStep (driverRun (x :: xs)) y.1 y.2 := by
  simp [driverRun, List.foldl_append]

/-- C3, counterexample: a run consisting of a single epoch writes the result
record but never writes any checkpoint, so the persisted checkpoint does not
hold the weights of the evaluation whose F1 the record stores. -/
theorem single_epoch_run_has_no_checkpoint :
    (driverRun [((0 : ℕ), r05)]).result = some r05 ∧
    (driverRun [((0 : ℕ), r05)]).ckpt = none ∧
    (driverRun [((0 : ℕ), r05)]).ckpt ≠ some 0 :=
  ⟨rfl, rfl, by decide⟩

/-- C3, amended: over any nonempty run starting with no prior files, the
persisted result's F1 always equals the maximum F1 seen so far; whenever that
maximum strictly exceeds the first epoch's F1, the persisted checkpoint holds
the weights of an evaluation achieving the maximum, and when it does not
(the first epoch was never strictly beaten) no checkpoint is persisted at
all. -/
theorem driverRun_monotonic_best {W : Type} (x : W × EvalResult)
    (xs : List (W × EvalResult)) :
    (∃ r, (driverRun (x :: xs)).result = some r ∧ r.f1 = maxF1 x xs) ∧
    (x.2.f1 < maxF1 x xs →
      ∃ p, p ∈ x :: xs ∧ (driverRun (x :: xs)).ckpt = some p.1 ∧
        p.2.f1 = maxF1 x xs) ∧
    (maxF1 x xs ≤ x.2.f1 → (driverRun (x :: xs)).ckpt = none) := by
  induction xs using List.reverseRecOn with
  | nil =>
      refine ⟨⟨x.2, rfl, rfl⟩, ?_, fun _ => rfl⟩
      intro h
      simp [maxF1] at h
  | append_singleton xs y ih =>
      obtain ⟨⟨r, hres, hrf1⟩, hckpt_hi, hckpt_lo⟩ := ih
      have hstep := driverRun_concat x y xs
      have hmax := maxF1_append x y xs
      by_cases hgt : maxF1 x xs < y.2.f1
      · have hE : driverRun (x :: (xs ++ [y])) = ⟨some y.2, some y.1⟩ :=
          hstep.trans (step_improved _ y.1 y.2 r hres (by rw [hrf1]; exact hgt))
        have hm : maxF1 x (xs ++ [y]) = y.2.f1 := by
          rw [hmax]; exact max_eq_right hgt.le
        refine ⟨⟨y.2, by rw [hE], by rw [hm]⟩, ?_, ?_⟩
        · intro _
          exact ⟨y, by simp, by rw [hE], by rw [hm]⟩
        · intro hle
          rw [hm] at hle
          have h1 : x.2.f1 ≤ maxF1 x xs := le_maxF1 x xs
          exact absurd (lt_of_lt_of_le (lt_of_le_of_lt h1 hgt) hle)
            (lt_irrefl _)
      · push_neg at hgt
        have hnot : ¬ r.f1 < y.2.f1 := by rw [hrf1]; exact not_lt.mpr hgt
        have hE : driverRun (x :: (xs ++ [y])) = driverRun (x :: xs) :=
          hstep.trans (step_not_improved _ y.1 y.2 r hres hnot)
        have hm : maxF1 x (xs ++ [y]) = maxF1 x xs := by
          rw [hmax]; exact max_eq_left hgt
        refine ⟨⟨r, by rw [hE]; exact hres, by rw [hm]; exact hrf1⟩, ?_, ?_⟩
        · intro hlt
          rw [hm] at hlt
          obtain ⟨p, hp, hck, hpf1⟩ := hckpt_hi hlt
          have hp' : p ∈ x :: (xs ++ [y]) := by
            rcases List.mem_cons.mp hp with h | h
            · exact h ▸ List.mem_cons_self _ _
            · exact List.mem_cons_of_mem _ (List.mem_append_left _ h)
          exact ⟨p, hp', by rw [hE]; exact hck, by rw [hm]; exact hpf1⟩
        · intro hle
          rw [hm] at hle
          rw [hE]
          exact hckpt_lo hle

/-- C3 witness: over the two-epoch run with F1 values 0.5 then 0.9, the
maximum exceeds the first epoch's F1 and the checkpoint holds the weights of
an evaluation achieving it. -/
theorem driverRun_monotonic_best_witness :
    r05.f1 < maxF1 ((0 : ℕ), r05) [((1 : ℕ), r09)] ∧
    ∃ p, p ∈ ((0 : ℕ), r05) :: [((1 : ℕ), r09)] ∧
      (driverRun (((0 : ℕ), r05) :: [((1 : ℕ), r09)])).ckpt = some p.1 ∧
      p.2.f1 = maxF1 ((0 : ℕ), r05) [((1 : ℕ), r09)] := by
  have hm : maxF1 ((0 : ℕ), r05) [((1 : ℕ), r09)] = r09.f1 := by
    simp only [maxF1, List.foldl_cons, List.foldl_nil]
    exact max_eq_right (by norm_num [r05, r09])
  have hlt : r05.f1 < maxF1 ((0 : ℕ), r05) [((1 : ℕ), r09)] := by
    rw [hm]; norm_num [r05, r09]
  exact ⟨hlt, (driverRun_monotonic_best ((0 : ℕ), r05) [((1 : ℕ), r09)]).2.1 hlt⟩

/-- C4: with the default configuration and the default model name `cnn`, the
path `train` saves the best checkpoint to and the path `main` loads it from
before prediction are different strings — `train`'s `save_path` default
`./out_models` lacks the trailing slash of the `./out_models/` literal used
at load time (and `main` never forwards `args.save_path` to `train`). -/
theorem train_predict_checkpoint_paths_differ :
    trainCheckpointPath trainSavePathDefault "cnn"
        ≠ predictCheckpointPath "cnn" ∧
    trainCheckpointPath trainSavePathDefault "cnn"
        = "./out_modelsbest_cnn_model.pt" ∧
    predictCheckpointPath "cnn" = "./out_models/best_cnn_model.pt" :=
  ⟨by decide, rfl, rfl⟩

/-- C8: the forward pass of the CNN classifier coincides, for every weight
assignment, every choice of the abstract primitives, and every input, with
the spec's pipeline: embed, parallel convolutions of widths {2,3,4}, ReLU,
per-branch max-pooling, concatenation, dropout, linear projection, softmax,
and — when a label is provided — cross-entropy loss computed against the
softmax output, returning `(loss, logits)`, else `(none, logits)`. -/
theorem cnn_forward_matches_spec (m : CNNModel) (P : Prims) (x : List ℕ)
    (att : List ℚ) (label : Option ℕ) :
    CNNModel.forward m P x att label = specCnnForward m P x att label := rfl

/-- C9: the embedding fusion layer's output is the dropout of the layer
normalization of the element-wise sum of the pretrained transformer's
embedding output and the POS-tag embedding lookup, and the constructed
POS-tag embedding table has exactly one row per entry of the POS-tag
vocabulary, each row of width `emb_size`. -/
theorem bert_embedding_fusion :
    (∀ (m : BertEmbedding) (src postag_ids seg : List ℕ)
        (pos : Option (List ℕ)),
      m.forward src postag_ids seg pos
        = specFusionForward m src postag_ids seg pos) ∧
    (∀ (postag_vocab : List String) (emb_size : ℕ) (winit : ℕ → ℕ → ℚ)
        (dl ln : List (List ℚ) → List (List ℚ))
        (be : List ℕ → Option (List ℕ) → List ℕ → List (List ℚ)),
      (BertEmbedding.init postag_vocab emb_size winit dl ln
          be).postag_embedding.length = postag_vocab.length ∧
      ∀ row ∈ (BertEmbedding.init postag_vocab emb_size winit dl ln
          be).postag_embedding, row.length = emb_size) := by
  constructor
  · intro m src postag_ids seg pos
    rfl
  · intro postag_vocab emb_size winit dl ln be
    constructor
    · simp [BertEmbedding.init]
    · intro row hrow
      simp only [BertEmbedding.init, List.mem_map, List.mem_range] at hrow
      obtain ⟨a, _, rfl⟩ := hrow
      simp

/-- C9 witness: a table built from a two-entry vocabulary with width 4 has a
row of length 4. -/
theorem bert_embedding_fusion_witness :
    ([0, 0, 0, 0] : List ℚ) ∈ (BertEmbedding.init vocab0 4 wZero id id
        beEmpty).postag_embedding ∧
    ([0, 0, 0, 0] : List ℚ).length = 4 :=
  ⟨by decide,
    (bert_embedding_fusion.2 vocab0 4 wZero id id beEmpty).2
      [0, 0, 0, 0] (by decide)⟩

/-- C10: the logits of every forward call have exactly 3 entries — the label
space is hard-coded — and a provided label yields a loss exactly when it lies
in {0, 1, 2}; any larger label makes the loss computation an error. -/
theorem cnn_three_classes (m : CNNModel) (P : Prims) (x : List ℕ)
    (att : List ℚ) :
    (∃ logit, m.forward P x att none = Except.ok (none, logit) ∧
      logit.length = 3) ∧
    (∀ l, l < 3 → ∃ loss logit,
      m.forward P x att (some l) = Except.ok (some loss, logit) ∧
      logit.length = 3) ∧
    (∀ l, 3 ≤ l → m.forward P x att (some l) = Except.error ()) := by
  refine ⟨⟨cnnLogit m P x, rfl, cnnLogit_length m P x⟩, ?_, ?_⟩
  · intro l hl
    have hlen : l < (cnnLogit m P x).length := by
      rw [cnnLogit_length]; exact hl
    refine ⟨-(P.log ((softmaxQ P (cnnLogit m P x)).getD l 0)),
      cnnLogit m P x, ?_, cnnLogit_length m P x⟩
    show CNNModel.forward m P x att (some l) = _
    simp [CNNModel.forward, crossEntropyLoss, hlen]
  · intro l hl
    have hlen : ¬ l < (cnnLogit m P x).length := by
      rw [cnnLogit_length]; omega
    show CNNModel.forward m P x att (some l) = _
    simp [CNNModel.forward, crossEntropyLoss, hlen]

/-- C10 witness: label 5 is rejected by the loss computation. -/
theorem cnn_three_classes_witness :
    (3 : ℕ) ≤ 5 ∧
    CNNModel.forward cnnZero primsId [] [] (some 5) = Except.error () :=
  ⟨by decide, (cnn_three_classes cnnZero primsId [] []).2.2 5 (by decide)⟩

/-- Auxiliary: a row whose tagging raises leaves the whole state unchanged
(the `except` branch logs and continues). -/
theorem processRow_failed (tagger : String → Option (List String))
    (st : ProcState) (i : ℕ) (text : String) (lab : ℤ)
    (h : tagger text = none) :
    processRow tagger st (i, text, lab) = st := by
  simp [processRow, h]

/-- Auxiliary: a row only ever writes the dictionary keys of its own index.
-/
theorem processRow_maps_other (tagger : String → Option (List String))
    (st : ProcState) (i : ℕ) (text : String) (lab : ℤ) (k : ℕ)
    (hk : k ≠ i) :
    (processRow tagger st (i, text, lab)).maps.postag k = st.maps.postag k ∧
    (processRow tagger st (i, text, lab)).maps.pos k = st.maps.pos k := by
  cases htag : tagger text <;> simp [processRow, htag, hk]

/-- Auxiliary: the loop started at index `j` never writes keys below `j`. -/
theorem processFrom_maps_lt (tagger : String → Option (List String))
    (rows : List (String × ℤ)) :
    ∀ (j : ℕ) (st : ProcState) (k : ℕ), k < j →
      (processFrom tagger j rows st).maps.postag k = st.maps.postag k ∧
      (processFrom tagger j rows st).maps.pos k = st.maps.pos k := by
  induction rows with
  | nil => intro j st k _; exact ⟨rfl, rfl⟩
  | cons row rest ih =>
      intro j st k hk
      obtain ⟨text, lab⟩ := row
      have h2 := ih (j + 1) (processRow tagger st (j, text, lab)) k (by omega)
      have h3 := processRow_maps_other tagger st j text lab k (by omega)
      simp only [processFrom]
      exact ⟨h2.1.trans h3.1, h2.2.trans h3.2⟩

/-- Auxiliary: a successfully tagged row at offset `k` of a loop started at
index `i` ends up in both dictionaries under key `i + k`, with its tag list
and its 0-based position list. -/
theorem processFrom_maps_success (tagger : String → Option (List String)) :
    ∀ (rows : List (String × ℤ)) (i : ℕ) (st : ProcState) (k : ℕ)
      (row : String × ℤ) (tags : List String),
      rows[k]? = some row → tagger row.1 = some tags →
      (processFrom tagger i rows st).maps.postag (i + k) = some tags ∧
      (processFrom tagger i rows st).maps.pos (i + k)
        = some (List.range tags.length) := by
  intro rows
  induction rows with
  | nil => intro i st k row tags hget _; simp at hget
  | cons row0 rest ih =>
      intro i st k row tags hget htag
      obtain ⟨text, lab⟩ := row0
      cases k with
      | zero =>
          rw [List.getElem?_cons_zero, Option.some_inj] at hget
          subst hget
          simp only [processFrom, Nat.add_zero]
          have hlt := processFrom_maps_lt tagger rest (i + 1)
            (processRow tagger st (i, text, lab)) i (by omega)
          refine ⟨hlt.1.trans ?_, hlt.2.trans ?_⟩
          · simp [processRow, htag]
          · simp [processRow, htag]
      | succ k' =>
          rw [List.getElem?_cons_succ] at hget
          have h := ih (i + 1) (processRow tagger st (i, text, lab)) k'
            row tags hget htag
          simp only [processFrom]
          have hidx : i + (k' + 1) = (i + 1) + k' := by omega
          rw [hidx]
          exact h

/-- Auxiliary: a row whose tagging raises leaves both dictionaries without an
entry under its key (whatever the incoming state had there). -/
theorem processFrom_maps_failed (tagger : String → Option (List String)) :
    ∀ (rows : List (String × ℤ)) (i : ℕ) (st : ProcState) (k : ℕ)
      (row : String × ℤ),
      rows[k]? = some row → tagger row.1 = none →
      (processFrom tagger i rows st).maps.postag (i + k)
        = st.maps.postag (i + k) ∧
      (processFrom tagger i rows st).maps.pos (i + k)
        = st.maps.pos (i + k) := by
  intro rows
  induction rows with
  | nil => intro i st k row hget _; simp at hget
  | cons row0 rest ih =>
      intro i st k row hget htag
      obtain ⟨text, lab⟩ := row0
      cases k with
      | zero =>
          rw [List.getElem?_cons_zero, Option.some_inj] at hget
          subst hget
          simp only [processFrom, Nat.add_zero]
          rw [processRow_failed tagger st i text lab htag]
          exact processFrom_maps_lt tagger rest (i + 1) st i (by omega)
      | succ k' =>
          rw [List.getElem?_cons_succ] at hget
          have h := ih (i + 1) (processRow tagger st (i, text, lab)) k'
            row hget htag
          have hother := processRow_maps_other tagger st i text lab
            ((i + 1) + k') (by omega)
          simp only [processFrom]
          have hidx : i + (k' + 1) = (i + 1) + k' := by omega
          rw [hidx]
          exact ⟨h.1.trans hother.1, h.2.trans hother.2⟩

/-- Auxiliary: the loop's effect on the module globals — `max_pos` folds
`max (·, len - 1)` and `postag_vocab` folds set union, both over exactly the
successfully tagged rows in order. -/
theorem processFrom_globals (tagger : String → Option (List String)) :
    ∀ (rows : List (String × ℤ)) (i : ℕ) (st : ProcState),
      (processFrom tagger i rows st).globals.max_pos
        = (succTokenCounts tagger rows).foldl
            (fun (a : ℤ) (c : ℕ) => max a ((c : ℤ) - 1)) st.globals.max_pos ∧
      (processFrom tagger i rows st).globals.postag_vocab
        = (succTagLists tagger rows).foldl
            (fun acc tags => acc ∪ tags.toFinset)
            st.globals.postag_vocab := by
  intro rows
  induction rows with
  | nil => intro i st; exact ⟨rfl, rfl⟩
  | cons row0 rest ih =>
      intro i st
      obtain ⟨text, lab⟩ := row0
      cases htag : tagger text with
      | none =>
          simp only [processFrom]
          rw [processRow_failed tagger st i text lab htag]
          have h := ih (i + 1) st
          simpa [succTokenCounts, succTagLists, List.filterMap_cons, htag]
            using h
      | some tags =>
          simp only [processFrom]
          have h := ih (i + 1) (processRow tagger st (i, text, lab))
          constructor
          · rw [h.1]
            simp [succTokenCounts, succTagLists, List.filterMap_cons, htag,
              processRow]
          · rw [h.2]
            simp [succTagLists, List.filterMap_cons, htag, processRow]

/-- Auxiliary: folding `max (·, count - 1)` from a seed at least `-1` gives
the maximum of the seed and `maxNat - 1`. -/
theorem foldl_max_tokenCounts :
    ∀ (l : List ℕ) (a : ℤ), -1 ≤ a →
      l.foldl (fun (b : ℤ) (c : ℕ) => max b ((c : ℤ) - 1)) a
        = max a ((maxNat l : ℤ) - 1) := by
  intro l
  induction l with
  | nil =>
      intro a ha
      simp only [List.foldl_nil, maxNat, List.foldr_nil, Nat.cast_zero]
      exact (max_eq_left (by omega)).symm
  | cons c t ih =>
      intro a ha
      rw [List.foldl_cons,
        ih (max a ((c : ℤ) - 1)) (le_trans ha (le_max_left _ _)),
        max_assoc]
      congr 1
      have h1 : (maxNat (c :: t) : ℤ) = max (c : ℤ) ((maxNat t : ℤ)) := by
        simp [maxNat, Nat.cast_max]
      rw [h1]
      exact max_sub_sub_right _ _ 1

/-- Auxiliary: folding set union from a seed equals seed ∪ `unionTags`. -/
theorem foldl_union_toFinset :
    ∀ (ls : List (List String)) (v : Finset String),
      ls.foldl (fun acc tags => acc ∪ tags.toFinset) v = v ∪ unionTags ls := by
  intro ls
  induction ls with
  | nil => intro v; simp [unionTags]
  | cons t ls ih =>
      intro v
      rw [List.foldl_cons, ih]
      simp only [unionTags, List.foldr_cons]
      rw [Finset.union_assoc]

/-- Auxiliary: membership in the union of a list of tag lists. -/
theorem mem_unionTags (s : String) :
    ∀ ls : List (List String), s ∈ unionTags ls ↔ ∃ tags ∈ ls, s ∈ tags := by
  intro ls
  induction ls with
  | nil => simp [unionTags]
  | cons t ls ih =>
      simp only [unionTags, List.foldr_cons, Finset.mem_union,
        List.mem_toFinset, List.mem_cons]
      rw [show (List.foldr (fun tags acc => tags.toFinset ∪ acc) ∅ ls)
          = unionTags ls from rfl, ih]
      constructor
      · rintro (h | ⟨tags, htags, hs⟩)
        · exact ⟨t, Or.inl rfl, h⟩
        · exact ⟨tags, Or.inr htags, hs⟩
      · rintro ⟨tags, (rfl | htags), hs⟩
        · exact Or.inl hs
        · exact Or.inr ⟨tags, htags, hs⟩

/-- Auxiliary: `unionTags` distributes over list append. -/
theorem unionTags_append (A B : List (List String)) :
    unionTags (A ++ B) = unionTags A ∪ unionTags B := by
  induction A with
  | nil => simp [unionTags]
  | cons t A ih =>
      simp only [unionTags, List.cons_append, List.foldr_cons] at ih ⊢
      rw [ih, Finset.union_assoc]

/-- Auxiliary: the effect of one `process` call on `max_pos`. -/
theorem process_globals_max_pos (tagger : String → Option (List String))
    (rows : List (String × ℤ)) (g : HelperGlobals) :
    (process tagger rows g).globals.max_pos
      = (succTokenCounts tagger rows).foldl
          (fun (a : ℤ) (c : ℕ) => max a ((c : ℤ) - 1)) g.max_pos := by
  simpa [process] using (processFrom_globals tagger rows 0 ⟨emptyMaps, g⟩).1

/-- Auxiliary: the effect of one `process` call on `postag_vocab`. -/
theorem process_globals_vocab (tagger : String → Option (List String))
    (rows : List (String × ℤ)) (g : HelperGlobals) :
    (process tagger rows g).globals.postag_vocab
      = (succTagLists tagger rows).foldl
          (fun acc tags => acc ∪ tags.toFinset) g.postag_vocab := by
  simpa [process] using (processFrom_globals tagger rows 0 ⟨emptyMaps, g⟩).2

/-- Auxiliary: the row loop is the fold of `processRow` over the enumerated
rows. -/
theorem processFrom_eq_foldl (tagger : String → Option (List String)) :
    ∀ (rows : List (String × ℤ)) (i : ℕ) (st : ProcState),
      processFrom tagger i rows st
        = (enumFrom i rows).foldl (processRow tagger) st := by
  intro rows
  induction rows with
  | nil => intro i st; rfl
  | cons row rest ih =>
      intro i st
      simp only [processFrom, enumFrom, List.foldl_cons]
      exact ih (i + 1) _

/-- Auxiliary: rows whose tagging raises can be dropped from the fold without
changing the outcome. -/
theorem foldl_processRow_filter (tagger : String → Option (List String)) :
    ∀ (l : List (ℕ × String × ℤ)) (st : ProcState),
      l.foldl (processRow tagger) st
        = (l.filter (fun item => (tagger item.2.1).isSome)).foldl
            (processRow tagger) st := by
  intro l
  induction l with
  | nil => intro st; rfl
  | cons item t ih =>
      intro st
      obtain ⟨i, text, lab⟩ := item
      rw [List.foldl_cons, List.filter_cons]
      cases htag : tagger text with
      | none =>
          rw [processRow_failed tagger st i text lab htag]
          simpa [htag] using ih st
      | some tags =>
          simpa [htag] using ih (processRow tagger st (i, text, lab))

/-- C5, counterexample: when every successfully processed row has an empty
document (as spacy produces on empty text), the code leaves `max_pos` at its
initial value 0, while the claimed value `max token count - 1` is `-1`. -/
theorem all_empty_docs_max_pos_differs :
    (helperMain cexTagger [("", 0)] [] []).2.2.globals.max_pos = 0 ∧
    (maxNat (succTokenCounts cexTagger [("", 0)]
        ++ succTokenCounts cexTagger [] ++ succTokenCounts cexTagger [])
          : ℤ) - 1 = -1 ∧
    (helperMain cexTagger [("", 0)] [] []).2.2.globals.max_pos
      ≠ (maxNat (succTokenCounts cexTagger [("", 0)]
          ++ succTokenCounts cexTagger [] ++ succTokenCounts cexTagger [])
            : ℤ) - 1 := by
  have h0 : (helperMain cexTagger [("", 0)] [] []).2.2.globals.max_pos
      = 0 := by
    show (process cexTagger [] (process cexTagger []
      (process cexTagger [("", 0)]
        ⟨0, {"[PAD]"}⟩).globals).globals).globals.max_pos = 0
    rw [process_globals_max_pos, process_globals_max_pos,
      process_globals_max_pos]
    simp [succTokenCounts, succTagLists, cexTagger]
  refine ⟨h0, by decide, ?_⟩
  rw [h0]
  decide

/-- C5, amended: every successfully tagged row is recorded with a POS-tag
list of one tag per token and the position list `0 .. token_count - 1` (both
of length equal to the token count); and provided at least one successfully
processed row has a nonzero token count, the final `max_pos` equals the
maximum token count over all successfully processed rows of the three splits
minus 1 (with only zero-token rows, `max_pos` stays at its initial 0). -/
theorem process_row_lengths_and_max_pos
    (tagger : String → Option (List String)) (tr dv te : List (String × ℤ)) :
    (∀ (rows : List (String × ℤ)) (g : HelperGlobals) (k : ℕ)
        (row : String × ℤ) (tags : List String),
      rows[k]? = some row → tagger row.1 = some tags →
      (process tagger rows g).maps.postag k = some tags ∧
      (process tagger rows g).maps.pos k = some (List.range tags.length)) ∧
    (1 ≤ maxNat (succTokenCounts tagger tr ++ succTokenCounts tagger dv
        ++ succTokenCounts tagger te) →
      (helperMain tagger tr dv te).2.2.globals.max_pos
        = (maxNat (succTokenCounts tagger tr ++ succTokenCounts tagger dv
            ++ succTokenCounts tagger te) : ℤ) - 1) := by
  constructor
  · intro rows g k row tags hget htag
    have h := processFrom_maps_success tagger rows 0 ⟨emptyMaps, g⟩ k row
      tags hget htag
    simpa [process] using h
  · intro hmax
    show (process tagger te (process tagger dv (process tagger tr
      ⟨0, {"[PAD]"}⟩).globals).globals).globals.max_pos = _
    rw [process_globals_max_pos, process_globals_max_pos,
      process_globals_max_pos, ← List.foldl_append, ← List.foldl_append,
      ← List.append_assoc]
    rw [foldl_max_tokenCounts _ 0 (by omega)]
    have h1 : (1 : ℤ) ≤ (maxNat (succTokenCounts tagger tr
        ++ succTokenCounts tagger dv ++ succTokenCounts tagger te) : ℤ) := by
      exact_mod_cast hmax
    have h2 : (0 : ℤ) ≤ (maxNat (succTokenCounts tagger tr
        ++ succTokenCounts tagger dv ++ succTokenCounts tagger te) : ℤ) - 1 :=
      by omega
    exact max_eq_right h2

/-- C5 witness: one split with the single row `("ok", 1)` tagged `["NN"]`:
the maps record the tag list and position list `[0]`, and `max_pos` ends at
`1 - 1 = 0`. -/
theorem process_row_lengths_and_max_pos_witness :
    (([("ok", (1 : ℤ))])[0]? = some ("ok", (1 : ℤ)) ∧
      tagger0 "ok" = some ["NN"] ∧
      (process tagger0 [("ok", 1)] ⟨0, {"[PAD]"}⟩).maps.postag 0
        = some ["NN"] ∧
      (process tagger0 [("ok", 1)] ⟨0, {"[PAD]"}⟩).maps.pos 0
        = some (List.range 1)) ∧
    (1 ≤ maxNat (succTokenCounts tagger0 [("ok", 1)]
        ++ succTokenCounts tagger0 [] ++ succTokenCounts tagger0 []) ∧
      (helperMain tagger0 [("ok", 1)] [] []).2.2.globals.max_pos
        = (maxNat (succTokenCounts tagger0 [("ok", 1)]
            ++ succTokenCounts tagger0 [] ++ succTokenCounts tagger0 [])
              : ℤ) - 1) := by
  have hp := process_row_lengths_and_max_pos tagger0 [("ok", 1)] [] []
  refine ⟨⟨rfl, by decide, ?_, ?_⟩, by decide, ?_⟩
  · exact (hp.1 [("ok", 1)] ⟨0, {"[PAD]"}⟩ 0 ("ok", 1) ["NN"] rfl
      (by decide)).1
  · exact (hp.1 [("ok", 1)] ⟨0, {"[PAD]"}⟩ 0 ("ok", 1) ["NN"] rfl
      (by decide)).2
  · exact hp.2 (by decide)

/-- C6: after the three splits, the persisted POS-tag vocabulary is exactly
the padding marker plus every tag of every successfully tagged row, and the
written file enumerates it without duplicates. -/
theorem postag_vocab_file_exact (tagger : String → Option (List String))
    (tr dv te : List (String × ℤ)) :
    ((helperMain tagger tr dv te).2.2.globals.postag_vocab
        = insert "[PAD]" (unionTags (succTagLists tagger tr
            ++ succTagLists tagger dv ++ succTagLists tagger te))) ∧
    (postagVocabFile (helperMain tagger tr dv te).2.2.globals).Nodup ∧
    (∀ s, s ∈ postagVocabFile (helperMain tagger tr dv te).2.2.globals ↔
      s = "[PAD]" ∨ ∃ tags, (tags ∈ succTagLists tagger tr ∨
        tags ∈ succTagLists tagger dv ∨ tags ∈ succTagLists tagger te) ∧
        s ∈ tags) := by
  have hv : (helperMain tagger tr dv te).2.2.globals.postag_vocab
      = insert "[PAD]" (unionTags (succTagLists tagger tr
          ++ succTagLists tagger dv ++ succTagLists tagger te)) := by
    show (process tagger te (process tagger dv (process tagger tr
      ⟨0, {"[PAD]"}⟩).globals).globals).globals.postag_vocab = _
    rw [process_globals_vocab, process_globals_vocab, process_globals_vocab,
      foldl_union_toFinset, foldl_union_toFinset, foldl_union_toFinset,
      unionTags_append, unionTags_append, Finset.insert_eq]
    ext s
    simp only [Finset.mem_union, Finset.mem_singleton, or_assoc]
  refine ⟨hv, Finset.sort_nodup _ _, ?_⟩
  intro s
  rw [postagVocabFile, Finset.mem_sort, hv, Finset.mem_insert, mem_unionTags]
  simp only [List.mem_append, or_assoc]

/-- C6 witness: the written vocabulary of a concrete run has no duplicates.
-/
theorem postag_vocab_file_exact_witness :
    (postagVocabFile
      (helperMain tagger0 [("ok", 1)] [] []).2.2.globals).Nodup :=
  (postag_vocab_file_exact tagger0 [("ok", 1)] [] []).2.1

/-- C7: a row whose tagging raises is skipped: it leaves the state untouched,
it produces no entry in either per-split JSON under its index, and the final
outcome is exactly the fold over the successfully tagged rows alone (all
other rows' entries and global contributions are unaffected). -/
theorem process_skips_failed_rows (tagger : String → Option (List String)) :
    (∀ (st : ProcState) (i : ℕ) (text : String) (lab : ℤ),
      tagger text = none → processRow tagger st (i, text, lab) = st) ∧
    (∀ (rows : List (String × ℤ)) (g : HelperGlobals) (k : ℕ)
        (row : String × ℤ),
      rows[k]? = some row → tagger row.1 = none →
      (process tagger rows g).maps.pos k = none ∧
      (process tagger rows g).maps.postag k = none) ∧
    (∀ (rows : List (String × ℤ)) (i : ℕ) (st : ProcState),
      processFrom tagger i rows st
        = ((enumFrom i rows).filter
            (fun item => (tagger item.2.1).isSome)).foldl
            (processRow tagger) st) := by
  refine ⟨processRow_failed tagger, ?_, ?_⟩
  · intro rows g k row hget htag
    have h := processFrom_maps_failed tagger rows 0 ⟨emptyMaps, g⟩ k row
      hget htag
    exact ⟨by simpa [process, emptyMaps] using h.2,
      by simpa [process, emptyMaps] using h.1⟩
  · intro rows i st
    rw [processFrom_eq_foldl tagger rows i st]
    exact foldl_processRow_filter tagger (enumFrom i rows) st

/-- C7 witness: with the two-row split `[("bad", 0), ("ok", 1)]` whose first
row raises, the dictionaries hold no entry under key 0. -/
theorem process_skips_failed_rows_witness :
    tagger0 "bad" = none ∧
    (process tagger0 [("bad", 0), ("ok", 1)] ⟨0, {"[PAD]"}⟩).maps.pos 0
        = none ∧
    (process tagger0 [("bad", 0), ("ok", 1)] ⟨0, {"[PAD]"}⟩).maps.postag 0
        = none := by
  have h := (process_skips_failed_rows tagger0).2.1 [("bad", 0), ("ok", 1)]
    ⟨0, {"[PAD]"}⟩ 0 ("bad", 0) rfl (by decide)
  exact ⟨by decide, h.1, h.2⟩

end HateCode
